import Mathlib

/-!
Verification of the HTTP fetch pipeline of `src/python/http.py`.

The Python module is shallowly embedded: bytes and decoded text are both
modelled as `List Char` (the module only ever treats bytes as Latin-1/ASCII
text, and `decode()` is the identity on that fragment), the socket's incoming
byte stream is the remaining `List Char`, and the outgoing stream is the
concatenation of the strings passed to `sock.send`.  Python exceptions become
an explicit `Except Err` result.  External decompression routines
(`gzip.decompress`, `zlib.decompress`, `brotli.decompress`) are opaque to the
module, so they are passed in as a `Codecs` record of parameters; the
optional `brotli` import is the `Option` field of that record.  While-loops
over the stream are written with an explicit fuel argument, a standard
device for shallowly embedding loops: every iteration of the Python loops
consumes at least one byte from the stream, so fuel `stream.length + 1`
is never exhausted; the public wrappers fix exactly that fuel.
-/

set_option autoImplicit false

namespace Http

/-- Python exceptions raised by `http.py`: `ValueError` (failed unpacking or
`int` parse), `AssertionError` (failed `assert`, carrying its message), and
`RuntimeError` (explicit `raise RuntimeError(...)`). -/
inductive Err where
  | valueError : String → Err
  | assertionError : String → Err
  | runtimeError : String → Err
  deriving DecidableEq, Repr

/-- Python `s.split(sep, 1)` unpacked into exactly two pieces: `none` when the
separator does not occur (the unpacking then raises `ValueError`). -/
def splitOnceOn (sep : Char) : List Char → Option (List Char × List Char)
  | [] => none
  | c :: rest =>
    if c = sep then some ([], rest)
    else (splitOnceOn sep rest).map (fun p => (c :: p.1, p.2))

/-- Python `s.split(sep, 2)` unpacked into exactly three pieces. -/
def split2On (sep : Char) (l : List Char) : Option (List Char × List Char × List Char) :=
  match splitOnceOn sep l with
  | none => none
  | some (a, r) =>
    match splitOnceOn sep r with
    | none => none
    | some (b, c) => some (a, b, c)

/-- Python `url.removeprefix("//")`: drop a leading `//` if present. -/
def stripSchemeSlashes : List Char → List Char
  | '/' :: '/' :: rest => rest
  | l => l

/-- One hexadecimal digit, models the per-character acceptance of
Python `int(s, 16)`. -/
def hexDigitVal? (c : Char) : Option Nat :=
  if '0' ≤ c ∧ c ≤ '9' then some (c.toNat - '0'.toNat)
  else if 'a' ≤ c ∧ c ≤ 'f' then some (c.toNat - 'a'.toNat + 10)
  else if 'A' ≤ c ∧ c ≤ 'F' then some (c.toNat - 'A'.toNat + 10)
  else none

def parseHexCore (acc : Nat) : List Char → Option Nat
  | [] => some acc
  | c :: rest =>
    match hexDigitVal? c with
    | none => none
    | some d => parseHexCore (16 * acc + d) rest

/-- Python `int(s, 16)` on the plain strings of hexadecimal digits that chunk
framing produces (the exotic literal forms — sign, `0x` prefix, `_`
separators — never arise from the hex digit lines considered here and are
not modelled). `none` models the raised `ValueError`. -/
def parseHexNat (l : List Char) : Option Nat :=
  if l = [] then none else parseHexCore 0 l

def decDigitVal? (c : Char) : Option Nat :=
  if '0' ≤ c ∧ c ≤ '9' then some (c.toNat - '0'.toNat) else none

def parseDecCore (acc : Nat) : List Char → Option Nat
  | [] => some acc
  | c :: rest =>
    match decDigitVal? c with
    | none => none
    | some d => parseDecCore (10 * acc + d) rest

/-- Python `int(s)` on plain strings of decimal digits (explicit ports). -/
def parseDecNat (l : List Char) : Option Nat :=
  if l = [] then none else parseDecCore 0 l

/-- The outcome of `request(url)` before any socket I/O happens: a `data:` URL
returns immediately with a synthetic header map and the literal payload
(`dataResult`), while a network URL proceeds to open a transport to the
parsed host and port and fetch the parsed path (`networkFetch`). -/
inductive RequestAction where
  | dataResult (headers : List (String × String)) (body : String)
  | networkFetch (scheme : String) (host : String) (port : Nat) (path : String)
  deriving DecidableEq, Repr

/-- The URL-parsing and scheme-dispatch part of `request` (`http.py`
lines 13–31): split off the scheme at the first `:`, assert it is known,
short-circuit `data:` URLs at the first `,`, and otherwise parse host,
optional explicit `:port` (overriding the scheme default 80/443) and path
(re-prefixed with `/`). -/
def request (url : String) : Except Err RequestAction :=
  match splitOnceOn ':' url.toList with
  | none => Except.error (Err.valueError "not enough values to unpack")
  | some (schemeL, rest1) =>
    let scheme := String.mk schemeL
    if scheme = "http" ∨ scheme = "https" ∨ scheme = "data" then
      let port : Nat := if scheme = "http" then 80 else 443
      if scheme = "data" then
        match splitOnceOn ',' rest1 with
        | none => Except.error (Err.valueError "not enough values to unpack")
        | some (ctL, bodyL) =>
          Except.ok (RequestAction.dataResult
            [("content-type", String.mk ctL)] (String.mk bodyL))
      else
        match splitOnceOn '/' (stripSchemeSlashes rest1) with
        | none => Except.error (Err.valueError "not enough values to unpack")
        | some (hostL, pathL) =>
          let path := String.mk ('/' :: pathL)
          match splitOnceOn ':' hostL with
          | some (hL, portL) =>
            match parseDecNat portL with
            | none => Except.error (Err.valueError "invalid literal for int()")
            | some p => Except.ok (RequestAction.networkFetch scheme (String.mk hL) p path)
          | none => Except.ok (RequestAction.networkFetch scheme (String.mk hostL) port path)
    else Except.error (Err.assertionError ("Unknown scheme " ++ scheme))

/-- `response.readline()` on the binary stream: everything up to and
including the first `'\n'` (the whole rest of the stream when no newline
remains, in particular `""` at EOF).  Returns the line and the remaining
stream. -/
def readline : List Char → List Char × List Char
  | [] => ([], [])
  | c :: rest =>
    if c = '\n' then ([c], rest)
    else
      let p := readline rest
      (c :: p.1, p.2)

/-- The ASCII whitespace characters stripped by Python `strip`/`rstrip`
(the header bytes in play are ASCII). -/
def isSpaceC (c : Char) : Bool :=
  c = ' ' || c = '\t' || c = '\n' || c = '\r' || c = '\x0B' || c = '\x0C'

/-- Python `s.rstrip()`. -/
def rstripL (l : List Char) : List Char :=
  (l.reverse.dropWhile isSpaceC).reverse

/-- Python `s.strip()`. -/
def stripL (l : List Char) : List Char :=
  rstripL (l.dropWhile isSpaceC)

/-- Python `s.lower()` on the ASCII header names in play. -/
def lowerS (l : List Char) : List Char :=
  l.map Char.toLower

/-- Python dict assignment `m[k] = v`: replace the value of an existing key
in place, otherwise append the new entry. -/
def dictInsert : List (String × String) → String → String → List (String × String)
  | [], k, v => [(k, v)]
  | (k1, v1) :: rest, k, v =>
    if k1 = k then (k, v) :: rest else (k1, v1) :: dictInsert rest k v

/-- Python dict lookup `m[k]` / membership `k in m`. -/
def dictGet? : List (String × String) → String → Option String
  | [], _ => none
  | (k1, v) :: rest, k => if k1 = k then some v else dictGet? rest k

/-- The external decompression routines imported by `http.py`.  They are
outside the module (Python standard library / optional `brotli` package), so
they are opaque parameters of the embedding; `brotli = None` when the import
failed is the `none` case of the `brotli` field. -/
structure Codecs where
  gzip_decompress : List Char → Except Err (List Char)
  zlib_decompress : List Char → Except Err (List Char)
  brotli : Option (List Char → Except Err (List Char))

/-- `decompress(data, encoding)` (`http.py` lines 111–123): dispatch on the
content-encoding value; `br` without the brotli package and any unrecognized
value raise `RuntimeError`. -/
def decompress (c : Codecs) (data : List Char) (encoding : String) : Except Err (List Char) :=
  if encoding = "gzip" then c.gzip_decompress data
  else if encoding = "deflate" then c.zlib_decompress data
  else if encoding = "br" then
    match c.brotli with
    | none => Except.error (Err.runtimeError "please install brotli package: pip install brotli")
    | some d => d data
  else if encoding = "identity" then Except.ok data
  else Except.error (Err.runtimeError ("unexpected content-encoding: " ++ encoding))

/-- The loop of `unchunked(response)` (`http.py` lines 94–108), with fuel:
read a line, `rstrip` it and parse it as a hexadecimal chunk size; stop at
size 0 (reading nothing further), otherwise read that many bytes of chunk
data, discard the 2-byte CRLF delimiter and continue.  Returns the
reassembled body together with the stream left unread. -/
def unchunkedGo : Nat → List Char → Except Err (List Char × List Char)
  | 0, _ => Except.error (Err.runtimeError "unreachable: fuel exhausted")
  | fuel + 1, s =>
    let line := (readline s).1
    let r := (readline s).2
    match parseHexNat (rstripL line) with
    | none => Except.error (Err.valueError "invalid literal for int()")
    | some size =>
      if size = 0 then Except.ok ([], r)
      else
        match unchunkedGo fuel ((r.drop size).drop 2) with
        | Except.error e => Except.error e
        | Except.ok (tail, rest2) => Except.ok (r.take size ++ tail, rest2)

/-- `unchunked(response)`: each loop iteration consumes at least the size
line (one byte or more), so `s.length + 1` fuel is never exhausted. -/
def unchunked (s : List Char) : Except Err (List Char × List Char) :=
  unchunkedGo (s.length + 1) s

/-- The header-reading loop of `_get_headers_and_body` (`http.py`
lines 68–74), with fuel: read a line until the blank `"\r\n"` terminator,
split each line on the first `:`, and store the lower-cased name mapped to
the stripped value. -/
def readHeadersGo :
    Nat → List (String × String) → List Char →
      Except Err (List (String × String) × List Char)
  | 0, _, _ => Except.error (Err.runtimeError "unreachable: fuel exhausted")
  | fuel + 1, acc, s =>
    let line := (readline s).1
    let r := (readline s).2
    if line = ['\r', '\n'] then Except.ok (acc, r)
    else
      match splitOnceOn ':' line with
      | none => Except.error (Err.valueError "not enough values to unpack")
      | some (headerL, valueL) =>
        readHeadersGo fuel
          (dictInsert acc (String.mk (lowerS headerL)) (String.mk (stripL valueL))) r

/-- The header block parser: each iteration consumes the read line, which is
nonempty whenever the loop continues, so `s.length + 1` fuel suffices. -/
def readHeaders (acc : List (String × String)) (s : List Char) :
    Except Err (List (String × String) × List Char) :=
  readHeadersGo (s.length + 1) acc s

/-- The body-framing and content-decoding part of `_get_headers_and_body`
(`http.py` lines 76–87): if a `transfer-encoding` header is present it must
be `chunked` and the body is reassembled by `unchunked`; otherwise the body
is `response.read()`, i.e. everything remaining on the stream.  Then, if a
`content-encoding` header is present, the body is passed through
`decompress`. -/
def decodeBody (c : Codecs) (headers : List (String × String)) (s : List Char) :
    Except Err (List Char) :=
  let step1 : Except Err (List Char) :=
    match dictGet? headers "transfer-encoding" with
    | some enc =>
      if enc = "chunked" then
        match unchunked s with
        | Except.error e => Except.error e
        | Except.ok (body, _) => Except.ok body
      else Except.error (Err.runtimeError ("Unsupported transfer-encoding: " ++ enc))
    | none => Except.ok s
  match step1 with
  | Except.error e => Except.error e
  | Except.ok body =>
    match dictGet? headers "content-encoding" with
    | some enc => decompress c body enc
    | none => Except.ok body

/-- The response side of `_get_headers_and_body` (`http.py` lines 57–91):
read the status line, split it into version, status and explanation on the
first two spaces, `assert status == "200"` (the `AssertionError` carries the
message `f"{status}: {explanation}"`), then parse the header block and
decode the body (`body.decode()` is the identity on the byte-as-char
model). -/
def getHeadersAndBody (c : Codecs) (s : List Char) :
    Except Err (List (String × String) × String) :=
  let line := (readline s).1
  let r := (readline s).2
  match split2On ' ' line with
  | none => Except.error (Err.valueError "not enough values to unpack")
  | some (_version, statusL, explanationL) =>
    if String.mk statusL = "200" then
      match readHeaders [] r with
      | Except.error e => Except.error e
      | Except.ok (headers, rest2) =>
        match decodeBody c headers rest2 with
        | Except.error e => Except.error e
        | Except.ok body => Except.ok (headers, String.mk body)
    else
      Except.error (Err.assertionError
        (String.mk statusL ++ ": " ++ String.mk explanationL))

/-- The Accept-Encoding value built in `_get_headers_and_body`
(`http.py` lines 46–49): `["gzip", "deflate"]`, plus `"br"` when the brotli
package imported, joined with `","`. -/
def acceptEncodingStr (brotliAvail : Bool) : String :=
  String.intercalate "," (["gzip", "deflate"] ++ if brotliAvail then ["br"] else [])

/-- The request bytes written by `_get_headers_and_body` (`http.py`
lines 51–56): the concatenation, in program order, of the six `sock.send`
payloads.  `platform` stands for the external `sys.platform` value. -/
def writeRequest (host path platform : String) (brotliAvail : Bool) : String :=
  "GET " ++ path ++ " HTTP/1.1\r\n" ++
  ("Host: " ++ host ++ "\r\n") ++
  "Connection: close\r\n" ++
  ("User-Agent: Mozilla/5.0 (" ++ platform ++ ")\r\n") ++
  ("Accept-Encoding: " ++ acceptEncodingStr brotliAvail ++ "\r\n") ++
  "\r\n"

/-- The character loop of `lex` (`http.py` lines 140–147): a `<` sets the
`in_angle` flag, a `>` clears it, and every other character is kept exactly
when the flag is clear. -/
def lexLoop : Bool → List Char → List Char
  | _, [] => []
  | inAngle, c :: rest =>
    if c = '<' then lexLoop true rest
    else if c = '>' then lexLoop false rest
    else if inAngle then lexLoop true rest
    else c :: lexLoop false rest

/-- `lex(body)` (`http.py` lines 126–148): the helper `get_body` (a search
with the Python `re` library for a `<body ...> ... </body>` span, falling
back to the whole input) is external regex machinery, so it is an opaque
parameter `gb`; its result is fed to the angle-bracket-stripping loop. -/
def lex (gb : List Char → List Char) (body : List Char) : List Char :=
  lexLoop false (gb body)

/-- Hexadecimal printing loop (most significant digit first), with fuel;
`fuel = n + 1` is always enough since the argument at least halves each
step. -/
def toHexGo : Nat → Nat → List Char → List Char
  | 0, _, acc => acc
  | fuel + 1, n, acc =>
    if n = 0 then acc else toHexGo fuel (n / 16) (Nat.digitChar (n % 16) :: acc)

/-- The canonical lowercase hexadecimal rendering of a chunk size, as used on
the size lines of chunked transfer framing. -/
def natToHex (n : Nat) : List Char :=
  if n = 0 then ['0'] else toHexGo (n + 1) n []

/-- One chunk of HTTP chunked framing: the chunk size as a hex line, the
chunk bytes, and a CRLF delimiter. -/
def encodeChunk (chunk : List Char) : List Char :=
  natToHex chunk.length ++ '\r' :: '\n' :: (chunk ++ ['\r', '\n'])

/-- A payload split into chunks and encoded as chunked transfer framing,
terminated by the size-0 chunk line `0\r\n`. -/
def encodeChunked (chunks : List (List Char)) : List Char :=
  (chunks.map encodeChunk).flatten ++ ['0', '\r', '\n']

/-- Drop every character up to and including the next `>` (everything when no
`>` remains). -/
def dropThroughGt : List Char → List Char
  | [] => []
  | c :: rest => if c = '>' then rest else dropThroughGt rest

theorem dropThroughGt_length_le : ∀ l : List Char, (dropThroughGt l).length ≤ l.length := by
  intro l
  induction l with
  | nil => simp [dropThroughGt]
  | cons c rest ih =>
    simp only [dropThroughGt]
    split
    · simp
    · exact Nat.le_succ_of_le ih

/-- Written from the claim about `lex`, for comparison with the embedded
loop: each `<` is dropped together with everything through the next `>`,
each stray `>` is dropped, and every other character is kept in order. -/
def stripTagsSpec (l : List Char) : List Char :=
  match l with
  | [] => []
  | c :: rest =>
    if c = '<' then stripTagsSpec (dropThroughGt rest)
    else if c = '>' then stripTagsSpec rest
    else c :: stripTagsSpec rest
termination_by l.length
decreasing_by
  · exact Nat.lt_succ_of_le (dropThroughGt_length_le rest)
  · exact Nat.lt_succ_self rest.length
  · exact Nat.lt_succ_self rest.length

/-- Written from the claim about the request writer, for comparison with the
embedded `writeRequest`: the claimed order of emitted lines (request line,
Host, Accept-Encoding, Connection) with no other header. -/
def specClaimedRequest (host path : String) (brotliAvail : Bool) : String :=
  "GET " ++ path ++ " HTTP/1.1\r\n" ++
  ("Host: " ++ host ++ "\r\n") ++
  ("Accept-Encoding: " ++ acceptEncodingStr brotliAvail ++ "\r\n") ++
  "Connection: close\r\n" ++
  "\r\n"

/-- A `Codecs` record with no working decoder, for responses whose handling
must not invoke any decompression routine. -/
def noCodecs : Codecs :=
  { gzip_decompress := fun _ => Except.error (Err.runtimeError "unavailable")
    zlib_decompress := fun _ => Except.error (Err.runtimeError "unavailable")
    brotli := none }

/-- A `Codecs` record whose gzip decoder reverses its input: a stand-in whose
output pins down exactly which bytes were handed to the content layer. -/
def revCodecs : Codecs :=
  { gzip_decompress := fun d => Except.ok d.reverse
    zlib_decompress := fun d => Except.ok d
    brotli := none }

/-! Supporting lemmas about the string and stream primitives. -/

theorem strMk_toList (s : String) : String.mk s.toList = s := by
  cases s
  rfl

theorem strToList_append (a b : String) : (a ++ b).toList = a.toList ++ b.toList := rfl

theorem strMk_append (a b : List Char) : String.mk (a ++ b) = String.mk a ++ String.mk b := rfl

theorem splitOnceOn_append (sep : Char) (a b : List Char) (h : sep ∉ a) :
    splitOnceOn sep (a ++ sep :: b) = some (a, b) := by
  induction a with
  | nil => simp [splitOnceOn]
  | cons c rest ih =>
    have hc : c ≠ sep := fun e => h (e ▸ List.mem_cons_self c rest)
    have hr : sep ∉ rest := fun m => h (List.mem_cons_of_mem c m)
    simp [splitOnceOn, hc, ih hr]

theorem splitOnceOn_eq_some_mem {sep : Char} {l a b : List Char}
    (h : splitOnceOn sep l = some (a, b)) : sep ∈ l := by
  induction l generalizing a b with
  | nil => simp [splitOnceOn] at h
  | cons c rest ih =>
    by_cases hc : c = sep
    · exact hc ▸ List.mem_cons_self c rest
    · simp only [splitOnceOn, if_neg hc, Option.map_eq_some'] at h
      obtain ⟨p, hp, -⟩ := h
      exact List.mem_cons_of_mem c (ih hp)

theorem readline_append (pre post : List Char) (h : '\n' ∉ pre) :
    readline (pre ++ '\n' :: post) = (pre ++ ['\n'], post) := by
  induction pre with
  | nil => simp [readline]
  | cons c rest ih =>
    have hc : c ≠ '\n' := fun e => h (e ▸ List.mem_cons_self c rest)
    have hr : '\n' ∉ rest := fun m => h (List.mem_cons_of_mem c m)
    simp [readline, hc, ih hr]

theorem readline_fst_append_snd (s : List Char) : (readline s).1 ++ (readline s).2 = s := by
  induction s with
  | nil => rfl
  | cons c rest ih =>
    simp only [readline]
    split
    · simp
    · simpa using ih

theorem readline_fst_nil {s : List Char} (h : (readline s).1 = []) : s = [] := by
  cases s with
  | nil => rfl
  | cons c rest =>
    simp only [readline] at h
    split at h <;> simp_all

theorem readline_snd_length {s : List Char} (h : (readline s).1 ≠ []) :
    (readline s).2.length < s.length := by
  have := readline_fst_append_snd s
  have hlen : (readline s).1.length + (readline s).2.length = s.length := by
    rw [← List.length_append, this]
  have hpos : 0 < (readline s).1.length := List.length_pos.mpr h
  omega

theorem dropWhile_append_all {p : Char → Bool} {w : List Char} (x : List Char)
    (h : ∀ c ∈ w, p c = true) : List.dropWhile p (w ++ x) = List.dropWhile p x := by
  induction w with
  | nil => rfl
  | cons c rest ih =>
    have hc : p c = true := h c (List.mem_cons_self c rest)
    simp only [List.cons_append, List.dropWhile_cons, hc, if_true]
    exact ih (fun d m => h d (List.mem_cons_of_mem c m))

theorem dropWhile_all_neg {p : Char → Bool} {l : List Char}
    (h : ∀ c ∈ l, p c = false) : List.dropWhile p l = l := by
  cases l with
  | nil => rfl
  | cons c rest =>
    have hc : p c = false := h c (List.mem_cons_self c rest)
    simp [List.dropWhile_cons, hc]

theorem rstripL_append_ws {w : List Char} (x : List Char)
    (h : ∀ c ∈ w, isSpaceC c = true) : rstripL (x ++ w) = rstripL x := by
  unfold rstripL
  rw [List.reverse_append, dropWhile_append_all x.reverse (fun c m => h c (List.mem_reverse.mp m))]

theorem rstripL_no_ws {x : List Char} (h : ∀ c ∈ x, isSpaceC c = false) : rstripL x = x := by
  unfold rstripL
  rw [dropWhile_all_neg (fun c m => h c (List.mem_reverse.mp m)), List.reverse_reverse]

theorem dropWhile_all_pos {p : Char → Bool} {l : List Char}
    (h : ∀ c ∈ l, p c = true) : List.dropWhile p l = [] := by
  have := dropWhile_append_all (p := p) (w := l) [] h
  simpa using this

theorem stripL_append_ws {w : List Char} (v : List Char)
    (h : ∀ c ∈ w, isSpaceC c = true) : stripL (v ++ w) = stripL v := by
  induction v with
  | nil =>
    unfold stripL
    rw [List.nil_append, dropWhile_all_pos h]
    rfl
  | cons c rest ih =>
    by_cases hc : isSpaceC c = true
    · unfold stripL
      simp only [List.cons_append, List.dropWhile_cons, hc, if_true]
      exact ih
    · unfold stripL
      rw [List.cons_append, List.dropWhile_cons, if_neg (by simp [hc]),
        List.dropWhile_cons, if_neg (by simp [hc])]
      exact rstripL_append_ws (c :: rest) h

/-! Supporting lemmas about hexadecimal printing and parsing. -/

theorem hexDigitChar_spec (d : Nat) (h : d < 16) :
    hexDigitVal? (Nat.digitChar d) = some d ∧
      isSpaceC (Nat.digitChar d) = false ∧ Nat.digitChar d ≠ '\n' := by
  interval_cases d <;> exact ⟨rfl, rfl, by decide⟩

theorem toHexGo_acc (fuel : Nat) : ∀ (n : Nat) (acc : List Char),
    toHexGo fuel n acc = toHexGo fuel n [] ++ acc := by
  induction fuel with
  | zero => intro n acc; rfl
  | succ f ih =>
    intro n acc
    by_cases hn : n = 0
    · simp [toHexGo, hn]
    · rw [toHexGo, if_neg hn, toHexGo, if_neg hn, ih (n / 16), ih (n / 16) [Nat.digitChar (n % 16)]]
      simp

theorem toHexGo_mem (fuel : Nat) : ∀ (n : Nat) (acc : List Char) (c : Char),
    c ∈ toHexGo fuel n acc → c ∈ acc ∨ ∃ d, d < 16 ∧ c = Nat.digitChar d := by
  induction fuel with
  | zero => intro n acc c hc; exact Or.inl hc
  | succ f ih =>
    intro n acc c hc
    by_cases hn : n = 0
    · rw [toHexGo, if_pos hn] at hc
      exact Or.inl hc
    · rw [toHexGo, if_neg hn] at hc
      rcases ih (n / 16) _ c hc with hm | hd
      · rcases List.mem_cons.mp hm with he | ha
        · exact Or.inr ⟨n % 16, Nat.mod_lt n (by omega), he⟩
        · exact Or.inl ha
      · exact Or.inr hd

theorem parseHexCore_append (v : Nat) (a b : List Char) :
    parseHexCore v (a ++ b) =
      match parseHexCore v a with
      | none => none
      | some w => parseHexCore w b := by
  induction a generalizing v with
  | nil => rfl
  | cons c rest ih =>
    simp only [List.cons_append, parseHexCore]
    match hd : hexDigitVal? c with
    | none => rfl
    | some d => exact ih (16 * v + d)

theorem parseHexCore_toHexGo (fuel : Nat) : ∀ (n v : Nat), n < fuel →
    parseHexCore v (toHexGo fuel n []) =
      some (v * 16 ^ (toHexGo fuel n []).length + n) := by
  induction fuel with
  | zero => intro n v h; omega
  | succ f ih =>
    intro n v h
    by_cases hn : n = 0
    · simp [toHexGo, hn, parseHexCore]
    · rw [toHexGo, if_neg hn, toHexGo_acc f (n / 16)]
      have hdiv : n / 16 < f := by
        have h1 : n / 16 < n := Nat.div_lt_self (by omega) (by omega)
        omega
      rw [parseHexCore_append, ih (n / 16) v hdiv]
      have hd := (hexDigitChar_spec (n % 16) (Nat.mod_lt n (by omega))).1
      simp only [parseHexCore, hd]
      have hmod : 16 * (n / 16) + n % 16 = n := Nat.div_add_mod n 16
      have : 16 * (v * 16 ^ (toHexGo f (n / 16) []).length + n / 16) + n % 16 =
          v * 16 ^ ((toHexGo f (n / 16) []).length + 1) + n := by
        rw [pow_succ]
        ring_nf
        omega
      rw [this]
      simp [parseHexCore]

theorem natToHex_mem (n : Nat) :
    ∀ c ∈ natToHex n, isSpaceC c = false ∧ c ≠ '\n' := by
  intro c hc
  unfold natToHex at hc
  by_cases hn : n = 0
  · rw [if_pos hn] at hc
    simp only [List.mem_singleton] at hc
    subst hc
    exact ⟨rfl, by decide⟩
  · rw [if_neg hn] at hc
    rcases toHexGo_mem (n + 1) n [] c hc with hm | ⟨d, hd, he⟩
    · simp at hm
    · subst he
      exact ⟨(hexDigitChar_spec d hd).2.1, (hexDigitChar_spec d hd).2.2⟩

theorem natToHex_ne_nil (n : Nat) : natToHex n ≠ [] := by
  unfold natToHex
  by_cases hn : n = 0
  · simp [hn]
  · rw [if_neg hn, toHexGo, if_neg hn, toHexGo_acc]
    simp

theorem parseHexNat_natToHex (n : Nat) : parseHexNat (natToHex n) = some n := by
  unfold parseHexNat
  rw [if_neg (natToHex_ne_nil n)]
  unfold natToHex
  by_cases hn : n = 0
  · simp [hn, parseHexCore, hexDigitVal?]
  · rw [if_neg hn, parseHexCore_toHexGo (n + 1) n 0 (Nat.lt_succ_self n)]
    simp

/-! Supporting lemmas about the chunked-transfer decoder. -/

theorem unchunkedGo_zeroLine (f : Nat) (rest : List Char) :
    unchunkedGo (f + 1) ('0' :: '\r' :: '\n' :: rest) = Except.ok ([], rest) := by
  rw [show ('0' :: '\r' :: '\n' :: rest : List Char) = ['0', '\r'] ++ '\n' :: rest from rfl]
  simp only [unchunkedGo, readline_append ['0', '\r'] rest (by decide)]
  rw [show rstripL (['0', '\r'] ++ ['\n']) = ['0'] from by decide]
  rw [show parseHexNat ['0'] = some 0 from by decide]
  rfl

theorem unchunkedGo_chunkLine (f : Nat) (ch tail : List Char) (hch : ch ≠ []) :
    unchunkedGo (f + 1) (encodeChunk ch ++ tail) =
      match unchunkedGo f tail with
      | Except.error e => Except.error e
      | Except.ok (t2, r2) => Except.ok (ch ++ t2, r2) := by
  have hs : encodeChunk ch ++ tail =
      (natToHex ch.length ++ ['\r']) ++ '\n' :: (ch ++ '\r' :: '\n' :: tail) := by
    simp [encodeChunk]
  have hpre : '\n' ∉ natToHex ch.length ++ ['\r'] := by
    intro hm
    rcases List.mem_append.mp hm with hm1 | hm1
    · exact (natToHex_mem ch.length '\n' hm1).2 rfl
    · simp at hm1
  rw [hs]
  simp only [unchunkedGo, readline_append _ _ hpre]
  rw [List.append_assoc (natToHex ch.length) ['\r'] ['\n']]
  rw [rstripL_append_ws (natToHex ch.length) (by decide),
    rstripL_no_ws (fun c hc => (natToHex_mem ch.length c hc).1),
    parseHexNat_natToHex]
  have hlen : ch.length ≠ 0 := by
    intro he
    exact hch (List.length_eq_zero.mp he)
  change (if ch.length = 0 then _ else _) = _
  rw [if_neg hlen]
  rw [List.take_left ch ('\r' :: '\n' :: tail), List.drop_left ch ('\r' :: '\n' :: tail)]
  rfl

theorem unchunkedGo_encode : ∀ (chunks : List (List Char)) (fuel : Nat) (rest : List Char),
    (∀ ch ∈ chunks, ch ≠ []) → chunks.length < fuel →
    unchunkedGo fuel (encodeChunked chunks ++ rest) = Except.ok (chunks.flatten, rest) := by
  intro chunks
  induction chunks with
  | nil =>
    intro fuel rest _ hfuel
    cases fuel with
    | zero => omega
    | succ f => exact unchunkedGo_zeroLine f rest
  | cons ch chs ih =>
    intro fuel rest hne hfuel
    cases fuel with
    | zero => omega
    | succ f =>
      have hs : encodeChunked (ch :: chs) ++ rest =
          encodeChunk ch ++ (encodeChunked chs ++ rest) := by
        simp [encodeChunked]
      rw [hs, unchunkedGo_chunkLine f ch _ (hne ch (List.mem_cons_self ch chs))]
      rw [ih f rest (fun c hc => hne c (List.mem_cons_of_mem ch hc)) (by simp at hfuel; omega)]
      rfl

theorem encodeChunked_length_ge (chunks : List (List Char)) :
    chunks.length + 1 ≤ (encodeChunked chunks).length := by
  induction chunks with
  | nil => simp [encodeChunked]
  | cons ch chs ih =>
    have : (encodeChunked (ch :: chs)).length =
        (encodeChunk ch).length + (encodeChunked chs).length := by
      simp [encodeChunked]
    have hc : 1 ≤ (encodeChunk ch).length := by
      simp only [encodeChunk, List.length_append, List.length_cons]
      omega
    simp only [List.length_cons]
    omega

/-! Supporting lemmas about the header-block parser. -/

theorem readHeadersGo_fuel : ∀ (f : Nat) (s : List Char) (acc : List (String × String))
    (f' : Nat), s.length < f → s.length < f' →
    readHeadersGo f acc s = readHeadersGo f' acc s := by
  intro f
  induction f with
  | zero => intro s acc f' h _; omega
  | succ f0 ih =>
    intro s acc f' h h'
    cases f' with
    | zero => omega
    | succ f1 =>
      simp only [readHeadersGo]
      by_cases hline : (readline s).1 = ['\r', '\n']
      · rw [if_pos hline, if_pos hline]
      · rw [if_neg hline, if_neg hline]
        cases hsp : splitOnceOn ':' (readline s).1 with
        | none => rfl
        | some p =>
          have hmem := splitOnceOn_eq_some_mem hsp
          have hne : (readline s).1 ≠ [] := by
            intro he
            rw [he] at hmem
            simp at hmem
          have hr := readline_snd_length hne
          exact ih _ _ _ (by omega) (by omega)

/-! Supporting lemmas about the tag-stripping loop of `lex`. -/

theorem lexLoop_true (l : List Char) : lexLoop true l = lexLoop false (dropThroughGt l) := by
  induction l with
  | nil => rfl
  | cons c rest ih =>
    by_cases hlt : c = '<'
    · subst hlt
      simp only [lexLoop, if_pos rfl, dropThroughGt, if_neg (by decide : ('<' : Char) ≠ '>')]
      exact ih
    · by_cases hgt : c = '>'
      · subst hgt
        simp [lexLoop, dropThroughGt]
      · simp only [lexLoop, if_neg hlt, if_neg hgt, if_pos rfl, dropThroughGt, if_neg hgt]
        exact ih

theorem lexLoop_false_bound : ∀ (n : Nat) (l : List Char), l.length ≤ n →
    lexLoop false l = stripTagsSpec l := by
  intro n
  induction n with
  | zero =>
    intro l h
    have : l = [] := List.length_eq_zero.mp (Nat.le_zero.mp h)
    subst this
    rw [stripTagsSpec]
    rfl
  | succ n ih =>
    intro l h
    cases l with
    | nil =>
      rw [stripTagsSpec]
      rfl
    | cons c rest =>
      simp only [List.length_cons, Nat.succ_le_succ_iff] at h
      rw [stripTagsSpec]
      by_cases hlt : c = '<'
      · simp only [lexLoop, if_pos hlt, hlt, if_pos rfl]
        rw [lexLoop_true rest]
        exact ih _ (le_trans (dropThroughGt_length_le rest) h)
      · by_cases hgt : c = '>'
        · simp only [lexLoop, if_neg hlt, if_pos hgt, hlt, hgt, if_pos rfl,
            if_neg (by decide : ('>' : Char) ≠ '<')]
          exact ih rest h
        · simp only [lexLoop, if_neg hlt, if_neg hgt, if_neg (by decide : ¬false = true)]
          exact congrArg (c :: ·) (ih rest h)

theorem lexLoop_no_angle : ∀ (l : List Char) (b : Bool) (c : Char),
    c ∈ lexLoop b l → c ≠ '<' ∧ c ≠ '>' := by
  intro l
  induction l with
  | nil => intro b c hc; simp [lexLoop] at hc
  | cons d rest ih =>
    intro b c hc
    by_cases hlt : d = '<'
    · rw [lexLoop, if_pos hlt] at hc
      exact ih true c hc
    · by_cases hgt : d = '>'
      · rw [lexLoop, if_neg hlt, if_pos hgt] at hc
        exact ih false c hc
      · cases b with
        | true =>
          rw [lexLoop, if_neg hlt, if_neg hgt, if_pos rfl] at hc
          exact ih true c hc
        | false =>
          rw [lexLoop, if_neg hlt, if_neg hgt, if_neg (by decide : ¬false = true)] at hc
          rcases List.mem_cons.mp hc with he | hm
          · exact he ▸ ⟨hlt, hgt⟩
          · exact ih false c hm

/-! The claims. -/

/-- Claim C1: for every data URL of the form `data:<content-type>,<payload>`
(the content type being the comma-free part before the first `,`), `request`
returns a header map whose single entry maps `content-type` to the parsed
content type, and a body equal to the payload verbatim, without opening any
transport: the result is the immediate `dataResult`, not a `networkFetch`. -/
theorem request_data_url (ct payload : String) (h : ',' ∉ ct.toList) :
    request ("data:" ++ ct ++ "," ++ payload) =
      Except.ok (RequestAction.dataResult [("content-type", ct)] payload) := by
  have hurl : ("data:" ++ ct ++ "," ++ payload).toList
      = ['d', 'a', 't', 'a'] ++ ':' :: (ct.toList ++ ',' :: payload.toList) := by
    rw [strToList_append, strToList_append, strToList_append]
    show ('d' :: 'a' :: 't' :: 'a' :: ':' :: ct.toList) ++ [','] ++ payload.toList = _
    simp
  unfold request
  rw [hurl, splitOnceOn_append ':' ['d', 'a', 't', 'a'] _ (by decide)]
  simp [show String.mk ['d', 'a', 't', 'a'] = "data" from rfl,
    splitOnceOn_append ',' ct.toList payload.toList h, strMk_toList]
  rw [splitOnceOn_append ',' ct.data payload.data h]

/-- Witness for C1 at the concrete data URL of the repository's own test. -/
theorem request_data_url_witness :
    (',' ∉ ("text/html" : String).toList) ∧
      request ("data:" ++ "text/html" ++ "," ++ "Hello world") =
        Except.ok (RequestAction.dataResult [("content-type", "text/html")] "Hello world") :=
  ⟨by decide, request_data_url "text/html" "Hello world" (by decide)⟩

/-- Claim C2: decoding a payload encoded as HTTP chunked framing (each chunk
a hex size line, the chunk bytes and a CRLF, terminated by the size-0 chunk
line) returns exactly the original payload bytes, and the size-0 line stops
the decoder before any further data is read: whatever follows the `0\r\n`
terminator is returned unread. -/
theorem unchunked_encodeChunked (chunks : List (List Char)) (rest : List Char)
    (h : ∀ ch ∈ chunks, ch ≠ []) :
    unchunked (encodeChunked chunks ++ rest) = Except.ok (chunks.flatten, rest) := by
  unfold unchunked
  apply unchunkedGo_encode chunks _ rest h
  have := encodeChunked_length_ge chunks
  simp only [List.length_append]
  omega

/-- Witness for C2: the claim's own instance, decoding the stream
`"4\r\ntest\r\n0\r\n\r\n"` yields `"test"` with the bytes after the `0\r\n`
terminator unread. -/
theorem unchunked_encodeChunked_witness :
    (∀ ch ∈ [("test" : String).toList], ch ≠ []) ∧
      unchunked ("4\r\ntest\r\n0\r\n\r\n".toList) =
        Except.ok ("test".toList, "\r\n".toList) :=
  ⟨by decide, unchunked_encodeChunked ["test".toList] ("\r\n".toList) (by decide)⟩

/-- Claim C3: for headers carrying `transfer-encoding: chunked` and
`content-encoding: gzip`, the body decoder first reassembles the chunked
stream and then gzip-decompresses the reassembled bytes — the gzip decoder
is applied to the output of `unchunked`, never the other way around. -/
theorem decodeBody_chunked_gzip (c : Codecs) (headers : List (String × String))
    (s : List Char)
    (h1 : dictGet? headers "transfer-encoding" = some "chunked")
    (h2 : dictGet? headers "content-encoding" = some "gzip") :
    decodeBody c headers s =
      match unchunked s with
      | Except.error e => Except.error e
      | Except.ok (body, _) => c.gzip_decompress body := by
  simp only [decodeBody, h1, h2]
  cases hu : unchunked s with
  | error e => simp
  | ok p => simp [decompress]

/-- Witness for C3 with a gzip stand-in that reverses its input, pinning the
order: the decoder receives the reassembled `"test"` and returns its
reverse. -/
theorem decodeBody_chunked_gzip_witness :
    dictGet? [("transfer-encoding", "chunked"), ("content-encoding", "gzip")]
        "transfer-encoding" = some "chunked" ∧
      dictGet? [("transfer-encoding", "chunked"), ("content-encoding", "gzip")]
        "content-encoding" = some "gzip" ∧
      decodeBody revCodecs [("transfer-encoding", "chunked"), ("content-encoding", "gzip")]
        ("4\r\ntest\r\n0\r\n\r\n".toList) = Except.ok ("tset".toList) := by
  refine ⟨rfl, rfl, ?_⟩
  rw [decodeBody_chunked_gzip revCodecs
    [("transfer-encoding", "chunked"), ("content-encoding", "gzip")]
    ("4\r\ntest\r\n0\r\n\r\n".toList) rfl rfl]
  rfl

theorem readHeadersGo_headerLine (f : Nat) (acc : List (String × String))
    (name value : String) (rest : List Char)
    (h1 : ':' ∉ name.toList) (h2 : '\n' ∉ name.toList) (h3 : '\n' ∉ value.toList) :
    readHeadersGo (f + 1) acc (name.toList ++ ':' :: (value.toList ++ '\r' :: '\n' :: rest)) =
      readHeadersGo f (dictInsert acc (String.mk (lowerS name.toList))
        (String.mk (stripL value.toList))) rest := by
  have hS : name.toList ++ ':' :: (value.toList ++ '\r' :: '\n' :: rest) =
      (name.toList ++ ':' :: (value.toList ++ ['\r'])) ++ '\n' :: rest := by
    simp
  have hpre : '\n' ∉ name.toList ++ ':' :: (value.toList ++ ['\r']) := by
    intro hm
    rcases List.mem_append.mp hm with hm1 | hm1
    · exact h2 hm1
    · rcases List.mem_cons.mp hm1 with he | hm2
      · exact absurd he (by decide)
      · rcases List.mem_append.mp hm2 with hm3 | hm3
        · exact h3 hm3
        · simp at hm3
  rw [hS]
  simp only [readHeadersGo, readline_append _ _ hpre]
  have hline : (name.toList ++ ':' :: (value.toList ++ ['\r'])) ++ ['\n'] ≠ ['\r', '\n'] := by
    intro he
    have hmem : ':' ∈ (['\r', '\n'] : List Char) := by
      rw [← he]
      exact List.mem_append_left _ (List.mem_append_right _ (List.mem_cons_self _ _))
    exact absurd hmem (by decide)
  rw [if_neg hline]
  rw [show (name.toList ++ ':' :: (value.toList ++ ['\r'])) ++ ['\n'] =
      name.toList ++ ':' :: (value.toList ++ ['\r', '\n']) from by simp]
  rw [splitOnceOn_append ':' _ _ h1]
  have hstrip : stripL (value.toList ++ ['\r', '\n']) = stripL value.toList :=
    stripL_append_ws _ (by decide)
  simp only [hstrip]

/-- Claim C4: for every wire header line `Name: value\r\n`, the header loop
inserts into the header map the key `Name` lower-cased mapped to `value`
with surrounding whitespace (including the trailing CRLF) stripped, whatever
the casing of `Name`, and continues on the rest of the stream. -/
theorem readHeaders_headerLine (acc : List (String × String)) (name value : String)
    (rest : List Char)
    (h1 : ':' ∉ name.toList) (h2 : '\n' ∉ name.toList) (h3 : '\n' ∉ value.toList) :
    readHeaders acc (name.toList ++ ':' :: (value.toList ++ '\r' :: '\n' :: rest)) =
      readHeaders (dictInsert acc (String.mk (lowerS name.toList))
        (String.mk (stripL value.toList))) rest := by
  unfold readHeaders
  rw [readHeadersGo_headerLine _ acc name value rest h1 h2 h3]
  apply readHeadersGo_fuel
  · simp only [List.length_append, List.length_cons]
    omega
  · omega

/-- Witness for C4 on the line `"Content-Type: text/html \r\n"`: the key is
lower-cased to `content-type` and the value `" text/html \r\n"` strips to
`text/html`. -/
theorem readHeaders_headerLine_witness :
    (':' ∉ ("Content-Type" : String).toList) ∧ ('\n' ∉ ("Content-Type" : String).toList) ∧
      ('\n' ∉ (" text/html " : String).toList) ∧
      readHeaders [] ("Content-Type".toList ++ ':' :: (" text/html ".toList ++ '\r' :: '\n' :: [])) =
        readHeaders (dictInsert [] "content-type" "text/html") [] := by
  refine ⟨by decide, by decide, by decide, ?_⟩
  exact readHeaders_headerLine [] "Content-Type" " text/html " [] (by decide) (by decide) (by decide)

/-- Amended claim C5: a response whose status line carries a status code
other than 200 makes the fetch fail with an assertion error whose message is
`f"{status}: {explanation}"`, where the explanation keeps the trailing CRLF
of the status line (`"404: Not Found\r\n"`, not `"404: Not Found"`); no
(headers, body) result is ever returned. -/
theorem getHeadersAndBody_non200 (c : Codecs) (version status expl : String)
    (tail : List Char)
    (hv : ' ' ∉ version.toList) (hvn : '\n' ∉ version.toList)
    (hsp : ' ' ∉ status.toList) (hsn : '\n' ∉ status.toList)
    (hen : '\n' ∉ expl.toList) (h200 : status ≠ "200") :
    getHeadersAndBody c
        (version.toList ++ ' ' :: (status.toList ++ ' ' :: (expl.toList ++ '\r' :: '\n' :: tail))) =
      Except.error (Err.assertionError (status ++ ": " ++ (expl ++ "\r\n"))) := by
  have hS : version.toList ++ ' ' :: (status.toList ++ ' ' :: (expl.toList ++ '\r' :: '\n' :: tail)) =
      (version.toList ++ ' ' :: (status.toList ++ ' ' :: (expl.toList ++ ['\r']))) ++ '\n' :: tail := by
    simp
  have hpre : '\n' ∉ version.toList ++ ' ' :: (status.toList ++ ' ' :: (expl.toList ++ ['\r'])) := by
    intro hm
    rcases List.mem_append.mp hm with hm1 | hm1
    · exact hvn hm1
    · rcases List.mem_cons.mp hm1 with he | hm2
      · exact absurd he (by decide)
      · rcases List.mem_append.mp hm2 with hm3 | hm3
        · exact hsn hm3
        · rcases List.mem_cons.mp hm3 with he | hm4
          · exact absurd he (by decide)
          · rcases List.mem_append.mp hm4 with hm5 | hm5
            · exact hen hm5
            · simp at hm5
  rw [hS]
  simp only [getHeadersAndBody, readline_append _ _ hpre]
  rw [show (version.toList ++ ' ' :: (status.toList ++ ' ' :: (expl.toList ++ ['\r']))) ++ ['\n'] =
      version.toList ++ ' ' :: (status.toList ++ ' ' :: (expl.toList ++ ['\r', '\n'])) from by simp]
  simp only [split2On, splitOnceOn_append ' ' version.toList _ hv,
    splitOnceOn_append ' ' status.toList _ hsp]
  rw [strMk_toList status, if_neg h200]
  rfl

/-- Witness for amended C5 at the claim's own status line
`"HTTP/1.1 404 Not Found\r\n"`. -/
theorem getHeadersAndBody_non200_witness :
    (' ' ∉ ("HTTP/1.1" : String).toList) ∧ (' ' ∉ ("404" : String).toList) ∧
      (("404" : String) ≠ "200") ∧
      getHeadersAndBody noCodecs ("HTTP/1.1 404 Not Found\r\n".toList) =
        Except.error (Err.assertionError "404: Not Found\r\n") := by
  refine ⟨by decide, by decide, by decide, ?_⟩
  exact getHeadersAndBody_non200 noCodecs "HTTP/1.1" "404" "Not Found" []
    (by decide) (by decide) (by decide) (by decide) (by decide) (by decide)

/-- Counterexample to C5 as stated: the error raised for
`"HTTP/1.1 404 Not Found\r\n"` carries the message `"404: Not Found\r\n"` —
the explanation retains the CRLF line terminator — which differs from the
claimed reason `"Not Found"`. -/
theorem getHeadersAndBody_404_counterexample :
    getHeadersAndBody noCodecs ("HTTP/1.1 404 Not Found\r\n".toList) =
      Except.error (Err.assertionError "404: Not Found\r\n") ∧
      ("404: Not Found\r\n" : String) ≠ "404" ++ ": " ++ "Not Found" := by
  exact ⟨rfl, by decide⟩

/-- Counterexample to C6 as stated: on `"http://example.com"` (no trailing
slash) the URL parser does not produce path `"/"` — the host/path split on
`/` finds no separator and the two-way unpacking raises `ValueError`. -/
theorem request_no_path_counterexample :
    request "http://example.com" = Except.error (Err.valueError "not enough values to unpack") ∧
      request "http://example.com" ≠
        Except.ok (RequestAction.networkFetch "http" "example.com" 80 "/") := by
  constructor
  · rfl
  · intro hcontra
    rw [show request "http://example.com" =
        Except.error (Err.valueError "not enough values to unpack") from rfl] at hcontra
    exact Except.noConfusion hcontra

/-- Amended claim C6: `"http://example.com"` (no `/` after the host) fails
with a `ValueError` from unpacking the host/path split rather than parsing
to path `"/"`; `"http://example.com/"` parses to path `"/"`; and
`"http://example.com:8080/x"` parses to host `example.com`, port `8080`
(the explicit base-10 `:port` suffix overriding the scheme default 80), and
path `"/x"`. -/
theorem request_url_parsing :
    request "http://example.com" = Except.error (Err.valueError "not enough values to unpack") ∧
      request "http://example.com/" =
        Except.ok (RequestAction.networkFetch "http" "example.com" 80 "/") ∧
      request "http://example.com:8080/x" =
        Except.ok (RequestAction.networkFetch "http" "example.com" 8080 "/x") :=
  ⟨rfl, rfl, rfl⟩

/-- Counterexample to C7 as stated: the bytes actually written differ from
the claimed serialization (request line, Host, Accept-Encoding, Connection,
blank line and nothing else) already at host `example.com`, path `/`, no
brotli: the code writes `Connection: close` third, then a `User-Agent`
header the claim does not allow, then `Accept-Encoding`. -/
theorem writeRequest_counterexample :
    writeRequest "example.com" "/" "linux" false ≠
      specClaimedRequest "example.com" "/" false := by
  decide

/-- Amended claim C7: the request writer emits, in order and nothing else:
the request line, a Host header, a `Connection: close` header, a
`User-Agent: Mozilla/5.0 (<platform>)` header, and an Accept-Encoding header
listing exactly the decoders available at runtime (gzip and deflate always,
br exactly when a brotli decoder is available), then the terminating blank
line. -/
theorem writeRequest_lines (host path platform : String) :
    writeRequest host path platform false =
      "GET " ++ path ++ " HTTP/1.1\r\n" ++ ("Host: " ++ host ++ "\r\n") ++
        "Connection: close\r\n" ++ ("User-Agent: Mozilla/5.0 (" ++ platform ++ ")\r\n") ++
        "Accept-Encoding: gzip,deflate\r\n" ++ "\r\n" ∧
      writeRequest host path platform true =
        "GET " ++ path ++ " HTTP/1.1\r\n" ++ ("Host: " ++ host ++ "\r\n") ++
          "Connection: close\r\n" ++ ("User-Agent: Mozilla/5.0 (" ++ platform ++ ")\r\n") ++
          "Accept-Encoding: gzip,deflate,br\r\n" ++ "\r\n" :=
  ⟨rfl, rfl⟩

/-- Amended claim C8: with no transfer-encoding header the body is
everything remaining on the stream until it is closed, regardless of any
content-length header — content-length is never consulted. -/
theorem decodeBody_no_transfer_encoding (c : Codecs) (headers : List (String × String))
    (s : List Char)
    (h1 : dictGet? headers "transfer-encoding" = none)
    (h2 : dictGet? headers "content-encoding" = none) :
    decodeBody c headers s = Except.ok s := by
  simp only [decodeBody, h1, h2]

/-- Witness for amended C8: with `content-length: 4` present and nine bytes
on the stream, all nine bytes are returned. -/
theorem decodeBody_no_transfer_encoding_witness :
    dictGet? [("content-length", "4")] "transfer-encoding" = none ∧
      dictGet? [("content-length", "4")] "content-encoding" = none ∧
      decodeBody noCodecs [("content-length", "4")] ("testEXTRA".toList) =
        Except.ok ("testEXTRA".toList) :=
  ⟨rfl, rfl, decodeBody_no_transfer_encoding noCodecs [("content-length", "4")]
    ("testEXTRA".toList) rfl rfl⟩

/-- Counterexample to C8 as stated: a response with `content-length: 4` and
nine bytes left on the stream yields all nine bytes, not exactly four. -/
theorem decodeBody_content_length_counterexample :
    decodeBody noCodecs [("content-length", "4")] ("testEXTRA".toList) =
      Except.ok ("testEXTRA".toList) ∧
      ("testEXTRA".toList).length ≠ 4 :=
  ⟨rfl, by decide⟩

/-- Claim C9: any content-encoding value outside gzip, deflate, br and
identity makes `decompress` fail with the `RuntimeError` carrying
`unexpected content-encoding`, never returning the raw bytes as a silent
passthrough. -/
theorem decompress_unknown_encoding (c : Codecs) (data : List Char) (encoding : String)
    (h1 : encoding ≠ "gzip") (h2 : encoding ≠ "deflate")
    (h3 : encoding ≠ "br") (h4 : encoding ≠ "identity") :
    decompress c data encoding =
      Except.error (Err.runtimeError ("unexpected content-encoding: " ++ encoding)) := by
  simp only [decompress, if_neg h1, if_neg h2, if_neg h3, if_neg h4]

/-- Witness for C9 at the claim's own encoding value `"zstd"`. -/
theorem decompress_unknown_encoding_witness :
    (("zstd" : String) ≠ "gzip") ∧ (("zstd" : String) ≠ "deflate") ∧
      (("zstd" : String) ≠ "br") ∧ (("zstd" : String) ≠ "identity") ∧
      decompress noCodecs ("test".toList) "zstd" =
        Except.error (Err.runtimeError "unexpected content-encoding: zstd") := by
  refine ⟨by decide, by decide, by decide, by decide, ?_⟩
  exact decompress_unknown_encoding noCodecs ("test".toList) "zstd"
    (by decide) (by decide) (by decide) (by decide)

/-- Claim C10: for every input, and whatever span the body-extraction helper
selects, the text returned by `lex` contains no `<` and no `>`; moreover it
equals the span-dropping description of the loop: every `<` is dropped
together with all characters through the next `>`, every stray `>` is
dropped, and all characters outside such angle-bracket spans of the
body-extracted input are kept in their original order. -/
theorem lex_strips_angle_brackets (gb : List Char → List Char) (body : List Char) :
    ('<' ∉ lex gb body ∧ '>' ∉ lex gb body) ∧ lex gb body = stripTagsSpec (gb body) := by
  refine ⟨⟨fun hm => ?_, fun hm => ?_⟩, ?_⟩
  · exact (lexLoop_no_angle (gb body) false '<' hm).1 rfl
  · exact (lexLoop_no_angle (gb body) false '>' hm).2 rfl
  · exact lexLoop_false_bound (gb body).length (gb body) le_rfl

end Http
